import Mathlib

/-!
Verification of the event-bot event lifecycle (src/eventbot.py).

The Python module stores events in a SQLite table keyed by `title` and
mutates them through slash commands and button callbacks.  We embed the
database as a `List EventRow`, SQL statements as list operations
(`SELECT ... WHERE title = ?` is a first-match lookup, `UPDATE ... WHERE
title = ?` maps over all matching rows, `DELETE` filters them out), and
each command/callback as a pure state-transition function.  Python's
`", ".join` / `.split(", ")` attendee serialization is embedded by
executable recursive functions on `List Char`.
-/

namespace EventBot

/-- Embedding of Python `s.split(", ")` on character lists: scan left to
right, splitting at each non-overlapping occurrence of `[',', ' ']`. -/
def splitCS : List Char → List (List Char)
  | [] => [[]]
  | [c] => [[c]]
  | a :: b :: rest =>
    if a = ',' ∧ b = ' ' then [] :: splitCS rest
    else
      match splitCS (b :: rest) with
      | [] => [[a]]
      | h :: t => (a :: h) :: t

/-- Embedding of Python `", ".join` on character lists. -/
def joinCS : List (List Char) → List Char
  | [] => []
  | [x] => x
  | x :: y :: t => x ++ ',' :: ' ' :: joinCS (y :: t)

/-- Whether a character list contains an occurrence of `", "`. -/
def hasCS : List Char → Bool
  | [] => false
  | [_] => false
  | a :: b :: rest => (a = ',' ∧ b = ' ') ∨ hasCS (b :: rest)

/-- Python `s.split(", ")` lifted to `String`. -/
def pySplit (s : String) : List String :=
  (splitCS s.data).map String.mk

/-- Python `", ".join(l)` lifted to `String`. -/
def pyJoin (l : List String) : String :=
  String.mk (joinCS (l.map String.data))

/-- The Python idiom `x.split(", ") if x else []` used on every attendee
read in `eventbot.py`. -/
def attList (s : String) : List String :=
  if s = "" then [] else pySplit s

/-- The literal placeholder `get_event_data` substitutes for an empty
attendees column. -/
def sentinel : String := "No participants yet"

/-- Split a character list at every occurrence of a single separator. -/
def splitCh (sep : Char) : List Char → List (List Char)
  | [] => [[]]
  | c :: rest =>
    if c = sep then [] :: splitCh sep rest
    else
      match splitCh sep rest with
      | [] => [[c]]
      | h :: t => (c :: h) :: t

/-- Numeric value of a run of decimal digit characters. -/
def digitsVal (l : List Char) : Nat :=
  l.foldl (fun a c => a * 10 + (c.toNat - '0'.toNat)) 0

/-- Whether a nonempty character list is all decimal digits. -/
def allDigits (l : List Char) : Bool :=
  (decide (l ≠ [])) && l.all Char.isDigit

/-- Gregorian leap-year rule used by Python's `datetime`. -/
def isLeap (y : Nat) : Bool :=
  y % 4 = 0 && (y % 100 ≠ 0 || y % 400 = 0)

/-- Days in a month, as validated by `datetime.strptime`. -/
def daysInMonth (y m : Nat) : Nat :=
  if m = 2 then (if isLeap y then 29 else 28)
  else if m = 4 ∨ m = 6 ∨ m = 9 ∨ m = 11 then 30
  else 31

/-- Embedding of `datetime.strptime(s, "%d-%m-%Y")`: day and month up to
two digits, year up to four, with calendar validation. -/
def parseDate (s : String) : Option (Nat × Nat × Nat) :=
  match splitCh '-' s.data with
  | [ds, ms, ys] =>
    if allDigits ds ∧ ds.length ≤ 2 ∧ allDigits ms ∧ ms.length ≤ 2 ∧
        allDigits ys ∧ ys.length ≤ 4 then
      let d := digitsVal ds
      let m := digitsVal ms
      let y := digitsVal ys
      if 1 ≤ y ∧ 1 ≤ m ∧ m ≤ 12 ∧ 1 ≤ d ∧ d ≤ daysInMonth y m then
        some (d, m, y)
      else none
    else none
  | _ => none

/-- Embedding of `datetime.strptime(hm, "%H:%M")` on a character list. -/
def parseHMList (l : List Char) : Option (Nat × Nat) :=
  match splitCh ':' l with
  | [hs, ms] =>
    if allDigits hs ∧ hs.length ≤ 2 ∧ allDigits ms ∧ ms.length ≤ 2 then
      let h := digitsVal hs
      let mi := digitsVal ms
      if h ≤ 23 ∧ mi ≤ 59 then some (h, mi) else none
    else none
  | _ => none

/-- Embedding of `datetime.strptime(s, "%H:%M")`. -/
def parseHM (s : String) : Option (Nat × Nat) :=
  parseHMList s.data

/-- Embedding of `datetime.strptime(s, "%H:%M UTC")`, the format of the
stored `time` column. -/
def parseTimeUTC (s : String) : Option (Nat × Nat) :=
  match splitCh ' ' s.data with
  | [hm, u] => if u = ['U', 'T', 'C'] then parseHMList hm else none
  | _ => none

/-- A wall-clock instant at minute granularity (UTC). -/
structure DT where
  year : Nat
  month : Nat
  day : Nat
  hour : Nat
  minute : Nat
deriving DecidableEq, Repr

/-- Order-preserving encoding of an instant, used for `datetime`
comparisons. -/
def DT.key (t : DT) : Nat :=
  (((t.year * 13 + t.month) * 32 + t.day) * 24 + t.hour) * 60 + t.minute

/-- Embedding of `datetime.strptime(f"{date} {time}", "%d-%m-%Y %H:%M UTC")`
as used by the scheduler promotion scan. -/
def parseDateTime (dateS timeS : String) : Option DT :=
  match parseDate dateS, parseTimeUTC timeS with
  | some (d, m, y), some (h, mi) => some ⟨y, m, d, h, mi⟩
  | _, _ => none

/-- Decimal digits of a number, left-padded with zeros to a width, as
`strftime` does for `%d`, `%m`, `%H`, `%M` (width 2) and `%Y` (width 4). -/
def padNat (w n : Nat) : List Char :=
  let ds := Nat.toDigits 10 n
  List.replicate (w - ds.length) '0' ++ ds

/-- Embedding of `strftime("%d-%m-%Y")`. -/
def formatDateDMY (d m y : Nat) : String :=
  String.mk (padNat 2 d ++ '-' :: padNat 2 m ++ '-' :: padNat 4 y)

/-- Embedding of `strftime("%H:%M UTC")`, the stored `time` format. -/
def formatTimeUTC (h mi : Nat) : String :=
  String.mk (padNat 2 h ++ ':' :: padNat 2 mi ++ [' ', 'U', 'T', 'C'])

/-- Minutes-of-day of `now + timedelta(minutes=30)`; the scheduler only
uses its `%H:%M UTC` rendering, so day rollover is irrelevant. -/
def futureHM (now : DT) : Nat :=
  (now.hour * 60 + now.minute + 30) % 1440

/-- The `future_time_str` computed at the top of `check_event_reminders`. -/
def futureTimeStr (now : DT) : String :=
  formatTimeUTC (futureHM now / 60) (futureHM now % 60)

/-- One row of the `events` table (column order as in `setup_database`). -/
structure EventRow where
  title : String
  date : String
  time : String
  description : String
  attendees : String
  message_id : String
  role_id : Option Nat
  channel_id : Nat
  host : String
  status : String
  created_at : String
  max_attendees : Option Int
deriving DecidableEq, Repr

/-- The guild-side state the bot touches: the set of existing role ids and
the id Discord would assign to the next created role. -/
structure Guild where
  roles : List Nat
  nextRoleId : Nat
deriving DecidableEq, Repr

/-- Embedding of `SELECT ... FROM events WHERE title = ?` followed by
`event[0]`: the first row with the given title. -/
def getRow : List EventRow → String → Option EventRow
  | [], _ => none
  | r :: rest, t => if r.title = t then some r else getRow rest t

/-- The dictionary built by `get_event_data`: the row with the attendees
column replaced by the sentinel when it is empty. -/
def toData (r : EventRow) : EventRow :=
  { r with attendees := if r.attendees = "" then sentinel else r.attendees }

/-- Embedding of `get_event_data(title)`. -/
def get_event_data (db : List EventRow) (title : String) : Option EventRow :=
  match getRow db title with
  | none => none
  | some r => some (toData r)

/-- Embedding of `UPDATE events SET ... WHERE title = ?`: rewrite every
row whose title matches. -/
def updateRows (db : List EventRow) (title : String) (f : EventRow → EventRow) :
    List EventRow :=
  db.map (fun r => if r.title = title then f r else r)

/-- Embedding of `DELETE FROM events WHERE title = ?`. -/
def deleteRows (db : List EventRow) (title : String) : List EventRow :=
  db.filter (fun r => r.title ≠ title)

/-- Whether `discord.utils.get(guild.roles, id=role_id)` finds a role. -/
def roleFound (roles : List Nat) : Option Nat → Bool
  | some i => decide (i ∈ roles)
  | none => false

/-- The capacity normalization in `host_event`:
`if max_attendees is not None and max_attendees <= 0: max_attendees = None`. -/
def normCap : Option Int → Option Int
  | some c => if c ≤ 0 then none else some c
  | none => none

/-- The join guard `if max_cap and len(attendees_list) >= max_cap` with
Python truthiness for `max_cap`. -/
def capFull (cap : Option Int) (n : Nat) : Bool :=
  match cap with
  | some c => decide (c ≠ 0) && decide (c ≤ (n : Int))
  | none => false

inductive CreateRes
  | duplicate
  | badFormat
  | created
deriving DecidableEq, Repr

structure CreateOut where
  db : List EventRow
  g : Guild
  res : CreateRes
deriving DecidableEq, Repr

/-- Embedding of the `/host_event` slash command (`host_event` in
`eventbot.py`).  Extra parameters stand for ambient effects: `hostUser`
is `interaction.user.mention`, `channelId` is `interaction.channel_id`,
`nowStr` is `datetime.utcnow().strftime(...)` and `msgId` is the id of
the status-card message sent at the end. -/
def host_event (db : List EventRow) (g : Guild) (title date timeS desc : String)
    (cap : Option Int) (hostUser : String) (channelId : Nat)
    (nowStr msgId : String) : CreateOut :=
  if (get_event_data db title).isSome then ⟨db, g, .duplicate⟩
  else
    match parseDate date, parseHM timeS with
    | some (d, m, y), some (hh, mi) =>
      let roleId := g.nextRoleId
      let g' : Guild := ⟨g.roles ++ [roleId], roleId + 1⟩
      let cap' : Option Int := normCap cap
      let row : EventRow :=
        { title := title
          date := formatDateDMY d m y
          time := formatTimeUTC hh mi
          description := desc
          attendees := hostUser
          message_id := ""
          role_id := some roleId
          channel_id := channelId
          host := hostUser
          status := "Upcoming"
          created_at := nowStr
          max_attendees := cap' }
      ⟨updateRows (db ++ [row]) title (fun r => { r with message_id := msgId }),
        g', .created⟩
    | _, _ => ⟨db, g, .badFormat⟩

inductive JoinRes
  | notFound
  | alreadyIn
  | full
  | joined
deriving DecidableEq, Repr

structure JoinOut where
  db : List EventRow
  g : Guild
  res : JoinRes
deriving DecidableEq, Repr

/-- Embedding of `ParticipateButton.callback`: `actor` is
`interaction.user.mention`. -/
def participate_callback (db : List EventRow) (g : Guild)
    (title actor : String) : JoinOut :=
  match get_event_data db title with
  | none => ⟨db, g, .notFound⟩
  | some d =>
    let l0 := attList d.attendees
    if actor ∈ l0 then ⟨db, g, .alreadyIn⟩
    else
      let l1 := if d.host ∈ l0 then l0 else d.host :: l0
      if capFull d.max_attendees l1.length then ⟨db, g, .full⟩
      else
        let formatted := pyJoin (l1 ++ [actor])
        let db1 := updateRows db title (fun r => { r with attendees := formatted })
        if roleFound g.roles d.role_id then ⟨db1, g, .joined⟩
        else
          let newId := g.nextRoleId
          ⟨updateRows db1 title (fun r => { r with role_id := some newId }),
            ⟨g.roles ++ [newId], newId + 1⟩, .joined⟩

inductive LeaveRes
  | notFound
  | isHost
  | notIn
  | left
deriving DecidableEq, Repr

structure LeaveOut where
  db : List EventRow
  roles : List Nat
  res : LeaveRes
deriving DecidableEq, Repr

/-- Embedding of `LeaveButton.callback`: `guildRoles` is the guild's
current role-id set, `actor` is `interaction.user.mention`. -/
def leave_callback (db : List EventRow) (guildRoles : List Nat)
    (title actor : String) : LeaveOut :=
  match get_event_data db title with
  | none => ⟨db, guildRoles, .notFound⟩
  | some d =>
    if actor = d.host then ⟨db, guildRoles, .isHost⟩
    else
      let l0 := attList d.attendees
      if actor ∈ l0 then
        let l1 := l0.erase actor
        let db1 := updateRows db title (fun r => { r with attendees := pyJoin l1 })
        if roleFound guildRoles d.role_id then
          match get_event_data db1 title with
          | none => ⟨db1, guildRoles, .left⟩
          | some d1 =>
            let remaining := attList d1.attendees
            if remaining = [] ∧ ¬ d1.host ∈ remaining then
              ⟨updateRows db1 title (fun r => { r with role_id := none }),
                (match d.role_id with
                 | some i => guildRoles.erase i
                 | none => guildRoles), .left⟩
            else ⟨db1, guildRoles, .left⟩
        else ⟨db1, guildRoles, .left⟩
      else ⟨db, guildRoles, .notIn⟩

inductive CompleteRes
  | notFound
  | notAllowed
  | completed
deriving DecidableEq, Repr

structure CompleteOut where
  db : List EventRow
  res : CompleteRes
deriving DecidableEq, Repr

/-- Embedding of `CompleteEventButton.callback`.  `markerOrphaned` stands
for the gateway-side condition "the event role exists and has no members
after the removals", which decides the `role_id = NULL` update; whatever
its value, the row is deleted at the end. -/
def complete_callback (db : List EventRow) (actor : String) (isAdmin : Bool)
    (title : String) (markerOrphaned : Bool) : CompleteOut :=
  match get_event_data db title with
  | none => ⟨db, .notFound⟩
  | some d =>
    if actor = d.host ∨ isAdmin then
      let db1 := updateRows db title (fun r => { r with status := "Completed" })
      let db2 :=
        if markerOrphaned then updateRows db1 title (fun r => { r with role_id := none })
        else db1
      ⟨deleteRows db2 title, .completed⟩
    else ⟨db, .notAllowed⟩

inductive TransferRes
  | notFound
  | notAllowed
  | notParticipant
  | ok
deriving DecidableEq, Repr

structure TransferOut where
  db : List EventRow
  res : TransferRes
deriving DecidableEq, Repr

/-- Embedding of the `/transferhost` slash command. -/
def transferhost (db : List EventRow) (actor : String) (isAdmin : Bool)
    (newHost title : String) : TransferOut :=
  match get_event_data db title with
  | none => ⟨db, .notFound⟩
  | some d =>
    if actor = d.host ∨ isAdmin then
      if newHost ∈ attList d.attendees then
        ⟨updateRows db title (fun r => { r with host := newHost }), .ok⟩
      else ⟨db, .notParticipant⟩
    else ⟨db, .notAllowed⟩

/-- One iteration of the 30-minute-reminder loop in
`check_event_reminders`: `acc` is `(sent_reminders, emitted reminders)`. -/
def reminderStep (db : List EventRow) (channels roles : List Nat)
    (acc : List String × List String) (title : String) :
    List String × List String :=
  match get_event_data db title with
  | none => acc
  | some d =>
    if title ∈ acc.1 then acc
    else if d.channel_id ∈ channels then
      if roleFound roles d.role_id then (title :: acc.1, acc.2 ++ [title])
      else acc
    else acc

/-- The reminder phase of `check_event_reminders`: the titles that get a
"starts in 30 minutes" announcement, in emission order. -/
def reminderPass (db : List EventRow) (fts : String)
    (channels roles : List Nat) : List String :=
  (((db.filter (fun r => r.time == fts)).map (fun r => r.title)).foldl
    (reminderStep db channels roles) ([], [])).2

/-- One iteration of the promotion loop in `check_event_reminders`:
`item` is one `(title, date, time)` row of the Upcoming snapshot, `acc`
is the current database plus the "has now started" announcements. -/
def promoteStep (now : DT) (channels roles : List Nat)
    (acc : List EventRow × List String) (item : String × String × String) :
    List EventRow × List String :=
  match get_event_data acc.1 item.1 with
  | none => acc
  | some d =>
    match parseDateTime item.2.1 item.2.2 with
    | none => acc
    | some start =>
      if start.key ≤ now.key then
        let db2 := updateRows acc.1 item.1 (fun r => { r with status := "Ongoing" })
        if d.channel_id ∈ channels ∧ roleFound roles d.role_id then
          (db2, acc.2 ++ [item.1])
        else (db2, acc.2)
      else acc

/-- The promotion phase of `check_event_reminders`: scans the snapshot of
Upcoming rows and promotes past-due events to Ongoing. -/
def promotePass (db : List EventRow) (now : DT) (channels roles : List Nat) :
    List EventRow × List String :=
  ((db.filter (fun r => r.status == "Upcoming")).map
    (fun r => (r.title, r.date, r.time))).foldl
    (promoteStep now channels roles) (db, [])

structure TickOut where
  reminders : List String
  db : List EventRow
  started : List String
deriving DecidableEq, Repr

/-- Embedding of one tick of the `check_event_reminders` task loop.
`channels` and `roles` are the channel and role ids the gateway can
resolve; announcements are only emitted when both resolve. -/
def check_event_reminders (db : List EventRow) (now : DT)
    (channels roles : List Nat) : TickOut :=
  let fts := futureTimeStr now
  let p := promotePass db now channels roles
  { reminders := reminderPass db fts channels roles
    db := p.1
    started := p.2 }

/-- The attendee list as stored in a row (empty column means empty list). -/
def storedAttendees (r : EventRow) : List String := attList r.attendees

/-- The host-inclusive attendee count of the claims: the stored list's
length, with the host synthesized into the count when absent from the
stored list. -/
def hostInclusiveCount (r : EventRow) : Nat :=
  (storedAttendees r).length + (if r.host ∈ storedAttendees r then 0 else 1)

/-- A concrete database row used to evaluate the operations on explicit
inputs. -/
def baseRow : EventRow :=
  { title := "E"
    date := "01-01-2030"
    time := "10:30 UTC"
    description := "desc"
    attendees := "<@1>"
    message_id := "m"
    role_id := some 5
    channel_id := 1
    host := "<@1>"
    status := "Upcoming"
    created_at := "2025-01-01 00:00:00"
    max_attendees := none }

/-- A concrete instant half an hour before `baseRow`'s stored time. -/
def now0 : DT := ⟨2030, 1, 1, 10, 0⟩

/-- A concrete instant after `baseRow`'s start instant. -/
def nowLate : DT := ⟨2031, 1, 1, 0, 0⟩

theorem splitCS_ne_nil (l : List Char) : splitCS l ≠ [] := by
  induction l using splitCS.induct with
  | case1 => simp [splitCS]
  | case2 c => simp [splitCS]
  | case3 a b rest hab ih => simp [splitCS, hab]
  | case4 a b rest hab hnil ih => simp [splitCS, hab, hnil]
  | case5 a b rest hab h t hcons ih => simp [splitCS, hab, hcons]

theorem joinCS_cons_cons (x y : List Char) (t : List (List Char)) :
    joinCS (x :: y :: t) = x ++ ',' :: ' ' :: joinCS (y :: t) := by
  rfl

theorem joinCS_head_cons (a : Char) (h : List Char) (t : List (List Char)) :
    joinCS ((a :: h) :: t) = a :: joinCS (h :: t) := by
  cases t with
  | nil => rfl
  | cons y t => simp [joinCS]

theorem joinCS_splitCS (l : List Char) : joinCS (splitCS l) = l := by
  induction l using splitCS.induct with
  | case1 => rfl
  | case2 c => rfl
  | case3 a b rest hab ih =>
    obtain ⟨ha, hb⟩ := hab
    subst ha; subst hb
    have hsp : splitCS (',' :: ' ' :: rest) = [] :: splitCS rest := by
      simp [splitCS]
    rw [hsp]
    cases h : splitCS rest with
    | nil => exact absurd h (splitCS_ne_nil rest)
    | cons x t =>
      rw [h] at ih
      rw [joinCS_cons_cons]
      simp [ih]
  | case4 a b rest hab hnil ih =>
    exact absurd hnil (splitCS_ne_nil (b :: rest))
  | case5 a b rest hab h t hcons ih =>
    have hsp : splitCS (a :: b :: rest) = (a :: h) :: t := by
      simp [splitCS, hab, hcons]
    rw [hsp]
    rw [hcons] at ih
    rw [joinCS_head_cons, ih]

theorem splitCS_of_not_hasCS (x : List Char) (hx : hasCS x = false) :
    splitCS x = [x] := by
  induction x using splitCS.induct with
  | case1 => rfl
  | case2 c => rfl
  | case3 a b rest hab ih =>
    exfalso
    simp [hasCS, hab] at hx
  | case4 a b rest hab hnil ih =>
    exact absurd hnil (splitCS_ne_nil (b :: rest))
  | case5 a b rest hab h t hcons ih =>
    have hx' : hasCS (b :: rest) = false := by
      simp [hasCS, hab] at hx
      simpa using hx
    have := ih hx'
    rw [hcons] at this
    have hh : h = b :: rest := by
      injection this with h1 h2
    have ht : t = [] := by
      injection this with h1 h2
    subst hh; subst ht
    simp [splitCS, hab, hcons]

theorem splitCS_append_sep (m : List Char) (x : List Char) (hx : hasCS x = false) :
    splitCS (x ++ ',' :: ' ' :: m) = x :: splitCS m := by
  induction x with
  | nil => simp [splitCS]
  | cons a x' ih =>
    cases x' with
    | nil =>
      have hstep : splitCS (a :: ',' :: ' ' :: m) =
          match splitCS (',' :: ' ' :: m) with
          | [] => [[a]]
          | h :: t => (a :: h) :: t := by
        have hna : ¬ (a = ',' ∧ ',' = ' ') := by
          intro hc
          exact absurd hc.2 (by decide)
        simp [splitCS, hna]
      have hin : splitCS (',' :: ' ' :: m) = [] :: splitCS m := by
        simp [splitCS]
      rw [List.cons_append, List.nil_append, hstep, hin]
    | cons b x'' =>
      have hab : ¬ (a = ',' ∧ b = ' ') := by
        intro hc
        simp [hasCS, hc.1, hc.2] at hx
      have hx' : hasCS (b :: x'') = false := by
        simp [hasCS, hab] at hx
        simpa using hx
      have ih' := ih hx'
      have hgoal : splitCS (a :: (b :: x'' ++ ',' :: ' ' :: m)) =
          match splitCS (b :: x'' ++ ',' :: ' ' :: m) with
          | [] => [[a]]
          | h :: t => (a :: h) :: t := by
        simp [splitCS, hab]
      rw [List.cons_append, hgoal, ih']

theorem splitCS_head_shape (b : Char) (rest : List Char) (h : List Char)
    (t : List (List Char)) (hcons : splitCS (b :: rest) = h :: t) :
    h = [] ∨ ∃ h', h = b :: h' := by
  cases rest with
  | nil =>
    simp [splitCS] at hcons
    right
    exact ⟨[], hcons.1.symm⟩
  | cons c rest' =>
    by_cases hbc : b = ',' ∧ c = ' '
    · left
      simp [splitCS, hbc] at hcons
      exact hcons.1
    · right
      rcases hsp : splitCS (c :: rest') with _ | ⟨x, s⟩
      · exact absurd hsp (splitCS_ne_nil (c :: rest'))
      · simp [splitCS, hbc, hsp] at hcons
        exact ⟨x, hcons.1.symm⟩

theorem hasCS_of_mem_splitCS (l : List Char) :
    ∀ x ∈ splitCS l, hasCS x = false := by
  induction l using splitCS.induct with
  | case1 =>
    intro x hx
    simp [splitCS] at hx
    simp [hx, hasCS]
  | case2 c =>
    intro x hx
    simp [splitCS] at hx
    simp [hx, hasCS]
  | case3 a b rest hab ih =>
    intro x hx
    obtain ⟨ha, hb⟩ := hab
    subst ha; subst hb
    have hsp : splitCS (',' :: ' ' :: rest) = [] :: splitCS rest := by
      simp [splitCS]
    rw [hsp] at hx
    rcases List.mem_cons.mp hx with h1 | h2
    · simp [h1, hasCS]
    · exact ih x h2
  | case4 a b rest hab hnil ih =>
    exact absurd hnil (splitCS_ne_nil (b :: rest))
  | case5 a b rest hab h t hcons ih =>
    intro x hx
    have hsp : splitCS (a :: b :: rest) = (a :: h) :: t := by
      simp [splitCS, hab, hcons]
    rw [hsp] at hx
    rcases List.mem_cons.mp hx with h1 | h2
    · subst h1
      have hhead : hasCS h = false := by
        apply ih
        rw [hcons]
        exact List.mem_cons_self h t
      rcases splitCS_head_shape b rest h t hcons with hnil' | ⟨h', hh'⟩
      · subst hnil'
        simp [hasCS]
      · subst hh'
        have : ¬ (a = ',' ∧ b = ' ') := hab
        simp [hasCS, this]
        simpa using hhead
    · apply ih
      rw [hcons]
      exact List.mem_cons_of_mem h h2

theorem splitCS_joinCS (L : List (List Char)) (hne : L ≠ [])
    (hcs : ∀ x ∈ L, hasCS x = false) : splitCS (joinCS L) = L := by
  induction L with
  | nil => exact absurd rfl hne
  | cons x L' ih =>
    cases L' with
    | nil =>
      have := hcs x (List.mem_cons_self x [])
      simp [joinCS, splitCS_of_not_hasCS x this]
    | cons y t =>
      rw [joinCS_cons_cons]
      rw [splitCS_append_sep (joinCS (y :: t)) x (hcs x (List.mem_cons_self x _))]
      have ih' := ih (by simp) (fun z hz => hcs z (List.mem_cons_of_mem x hz))
      rw [ih']

theorem pyJoin_pySplit (s : String) : pyJoin (pySplit s) = s := by
  unfold pyJoin pySplit
  rw [List.map_map]
  have : (String.data ∘ String.mk) = id := by
    funext l
    rfl
  rw [this, List.map_id, joinCS_splitCS]

theorem pySplit_pyJoin (L : List String) (hne : L ≠ [])
    (hcs : ∀ x ∈ L, hasCS x.data = false) : pySplit (pyJoin L) = L := by
  unfold pyJoin pySplit
  have hd : (String.mk (joinCS (L.map String.data))).data = joinCS (L.map String.data) := rfl
  rw [hd, splitCS_joinCS (L.map String.data) (by simpa using hne)
    (by intro x hx
        rcases List.mem_map.mp hx with ⟨y, hy, hxy⟩
        subst hxy
        exact hcs y hy)]
  rw [List.map_map]
  have : (String.mk ∘ String.data) = id := by
    funext t
    rfl
  rw [this, List.map_id]

theorem pySplit_ne_nil (s : String) : pySplit s ≠ [] := by
  unfold pySplit
  intro h
  exact splitCS_ne_nil s.data (by simpa using h)

theorem pySplit_single (s : String) (hs : hasCS s.data = false) :
    pySplit s = [s] := by
  unfold pySplit
  rw [splitCS_of_not_hasCS s.data hs]
  rfl

/-- Tail of a Discord user mention after the leading characters: digits
followed by a closing angle bracket. -/
def mentionTail : List Char → Bool
  | [] => false
  | [c] => c = '>'
  | c :: b :: rest => c.isDigit && mentionTail (b :: rest)

/-- A Discord user mention, the shape `interaction.user.mention` always
has: a literal `<@`, digits, then `>`. -/
def isMention (s : String) : Bool :=
  match s.data with
  | c1 :: c2 :: rest => c1 = '<' && c2 = '@' && mentionTail rest
  | _ => false

theorem mentionTail_no_comma (l : List Char) (h : mentionTail l = true) :
    ∀ c ∈ l, c ≠ ',' := by
  induction l using mentionTail.induct with
  | case1 => exact absurd h (by decide)
  | case2 c =>
    intro d hd
    have hc : c = '>' := by
      have h' : decide (c = '>') = true := h
      exact of_decide_eq_true h'
    simp at hd
    subst hd
    rw [hc]
    decide
  | case3 c b rest ih =>
    intro d hd
    have h' : c.isDigit = true ∧ mentionTail (b :: rest) = true := by
      have : (c.isDigit && mentionTail (b :: rest)) = true := h
      exact Bool.and_eq_true_iff.mp this
    rcases List.mem_cons.mp hd with h1 | h2
    · subst h1
      intro hc
      subst hc
      exact absurd h'.1 (by decide)
    · exact ih h'.2 d h2

theorem hasCS_of_no_comma (l : List Char) (h : ∀ c ∈ l, c ≠ ',') :
    hasCS l = false := by
  induction l using hasCS.induct with
  | case1 => rfl
  | case2 c => rfl
  | case3 a b rest ih =>
    have ha : a ≠ ',' := h a (List.mem_cons_self a _)
    have hrest : hasCS (b :: rest) = false :=
      ih (fun c hc => h c (List.mem_cons_of_mem a hc))
    simp [hasCS, ha, hrest]

theorem isMention_no_hasCS (s : String) (h : isMention s = true) :
    hasCS s.data = false := by
  unfold isMention at h
  rcases hd : s.data with _ | ⟨c1, rest1⟩
  · rfl
  · rcases rest1 with _ | ⟨c2, rest⟩
    · rfl
    · rw [hd] at h
      have h' : (decide (c1 = '<') && decide (c2 = '@') && mentionTail rest) = true := h
      have h1 : c1 = '<' := of_decide_eq_true (Bool.and_eq_true_iff.mp (Bool.and_eq_true_iff.mp h').1).1
      have h2 : c2 = '@' := of_decide_eq_true (Bool.and_eq_true_iff.mp (Bool.and_eq_true_iff.mp h').1).2
      have h3 : mentionTail rest = true := (Bool.and_eq_true_iff.mp h').2
      rw [h1, h2]
      apply hasCS_of_no_comma
      intro d hmem
      rcases List.mem_cons.mp hmem with hm1 | hm2
      · subst hm1
        decide
      · rcases List.mem_cons.mp hm2 with hm3 | hm4
        · subst hm3
          decide
        · exact mentionTail_no_comma rest h3 d hm4

theorem isMention_ne_empty (s : String) (h : isMention s = true) : s ≠ "" := by
  intro hc
  subst hc
  exact absurd h (by decide)

theorem isMention_ne_sentinel (s : String) (h : isMention s = true) :
    s ≠ sentinel := by
  intro hc
  subst hc
  exact absurd h (by decide)

theorem getRow_mem (db : List EventRow) (t : String) (r : EventRow)
    (h : getRow db t = some r) : r ∈ db ∧ r.title = t := by
  induction db with
  | nil => simp [getRow] at h
  | cons x rest ih =>
    by_cases hx : x.title = t
    · simp [getRow, hx] at h
      subst h
      exact ⟨List.mem_cons_self x rest, hx⟩
    · simp [getRow, hx] at h
      rcases ih h with ⟨h1, h2⟩
      exact ⟨List.mem_cons_of_mem x h1, h2⟩

theorem getRow_eq_none (db : List EventRow) (t : String)
    (h : getRow db t = none) : ∀ r ∈ db, r.title ≠ t := by
  induction db with
  | nil => simp
  | cons x rest ih =>
    by_cases hx : x.title = t
    · simp [getRow, hx] at h
    · simp [getRow, hx] at h
      intro r hr
      rcases List.mem_cons.mp hr with h1 | h2
      · subst h1
        exact hx
      · exact ih h r h2

theorem getRow_nodup (db : List EventRow) (r : EventRow)
    (hnd : (db.map (fun x => x.title)).Nodup) (hr : r ∈ db) :
    getRow db r.title = some r := by
  induction db with
  | nil => simp at hr
  | cons x rest ih =>
    rcases List.mem_cons.mp hr with h1 | h2
    · subst h1
      simp [getRow]
    · have hx : x.title ≠ r.title := by
        intro hc
        have : r.title ∈ rest.map (fun x => x.title) :=
          List.mem_map.mpr ⟨r, h2, rfl⟩
        rw [← hc] at this
        exact (List.nodup_cons.mp (by simpa using hnd)).1 this
      simp [getRow, hx]
      exact ih (List.nodup_cons.mp (by simpa using hnd)).2 h2

theorem getRow_updateRows_self (db : List EventRow) (t : String)
    (f : EventRow → EventRow) (hf : ∀ r, (f r).title = r.title) :
    getRow (updateRows db t f) t = (getRow db t).map f := by
  induction db with
  | nil => rfl
  | cons x rest ih =>
    by_cases hx : x.title = t
    · simp [updateRows, getRow, hx, hf x]
    · simp only [updateRows, List.map_cons, if_neg hx]
      simp [getRow, hx]
      exact ih

theorem getRow_updateRows_other (db : List EventRow) (t t' : String)
    (f : EventRow → EventRow) (hf : ∀ r, (f r).title = r.title)
    (hne : t' ≠ t) :
    getRow (updateRows db t f) t' = getRow db t' := by
  induction db with
  | nil => rfl
  | cons x rest ih =>
    show getRow ((if x.title = t then f x else x) :: updateRows rest t f) t' =
      getRow (x :: rest) t'
    by_cases hx : x.title = t
    · rw [if_pos hx]
      have hft : (f x).title = x.title := hf x
      have h1 : ¬ (f x).title = t' := by
        rw [hft, hx]
        exact fun hc => hne hc.symm
      have h2 : ¬ x.title = t' := by
        rw [hx]
        exact fun hc => hne hc.symm
      simp only [getRow, if_neg h1, if_neg h2]
      exact ih
    · rw [if_neg hx]
      by_cases hx2 : x.title = t'
      · simp only [getRow, if_pos hx2]
      · simp only [getRow, if_neg hx2]
        exact ih

theorem getRow_deleteRows_self (db : List EventRow) (t : String) :
    getRow (deleteRows db t) t = none := by
  induction db with
  | nil => rfl
  | cons x rest ih =>
    by_cases hx : x.title = t
    · simp [deleteRows, List.filter, hx, getRow]
      simpa [deleteRows] using ih
    · simp [deleteRows, List.filter, hx, getRow]
      simpa [deleteRows, getRow, hx] using ih

theorem map_updateRows (db : List EventRow) (t : String)
    (f : EventRow → EventRow) {α : Type} (g : EventRow → α)
    (hg : ∀ r, g (f r) = g r) :
    (updateRows db t f).map g = db.map g := by
  induction db with
  | nil => rfl
  | cons x rest ih =>
    by_cases hx : x.title = t
    · simp [updateRows, hx, hg x]
      simpa [updateRows] using ih
    · simp [updateRows, hx]
      simpa [updateRows] using ih

theorem deleteRows_updateRows (db : List EventRow) (t : String)
    (f : EventRow → EventRow) (hf : ∀ r, (f r).title = r.title) :
    deleteRows (updateRows db t f) t = deleteRows db t := by
  induction db with
  | nil => rfl
  | cons x rest ih =>
    by_cases hx : x.title = t
    · have hfx : (f x).title = t := by rw [hf x, hx]
      simp [updateRows, deleteRows, List.filter, hx, hfx]
      simpa [updateRows, deleteRows] using ih
    · simp [updateRows, deleteRows, List.filter, hx]
      simpa [updateRows, deleteRows] using ih

theorem getRow_append_right (db : List EventRow) (row : EventRow)
    (t : String) (h : getRow db t = none) :
    getRow (db ++ [row]) t = if row.title = t then some row else none := by
  induction db with
  | nil => rfl
  | cons x rest ih =>
    by_cases hx : x.title = t
    · simp [getRow, hx] at h
    · simp [getRow, hx] at h
      simp [getRow, hx]
      exact ih h
theorem reminderStep_cases (db : List EventRow) (channels roles : List Nat)
    (acc : List String × List String) (title : String) :
    reminderStep db channels roles acc title = acc ∨
      (title ∉ acc.1 ∧
        reminderStep db channels roles acc title =
          (title :: acc.1, acc.2 ++ [title])) := by
  unfold reminderStep
  rcases get_event_data db title with _ | d
  · exact Or.inl rfl
  · by_cases h1 : title ∈ acc.1
    · simp [h1]
    · by_cases h2 : d.channel_id ∈ channels
      · by_cases h3 : roleFound roles d.role_id
        · simp [h1, h2, h3]
        · simp [h1, h2, h3]
      · simp [h1, h2]

theorem reminder_fold_invariant (db : List EventRow) (channels roles : List Nat) :
    ∀ (titles : List String) (acc : List String × List String),
      acc.2.Nodup → (∀ t ∈ acc.2, t ∈ acc.1) →
      (titles.foldl (reminderStep db channels roles) acc).2.Nodup ∧
        (∀ t ∈ (titles.foldl (reminderStep db channels roles) acc).2,
          t ∈ (titles.foldl (reminderStep db channels roles) acc).1) := by
  intro titles
  induction titles with
  | nil =>
    intro acc h1 h2
    exact ⟨h1, h2⟩
  | cons title rest ih =>
    intro acc h1 h2
    rw [List.foldl_cons]
    rcases reminderStep_cases db channels roles acc title with hc | ⟨hnin, hc⟩
    · rw [hc]
      exact ih acc h1 h2
    · rw [hc]
      apply ih
      · have hnin2 : title ∉ acc.2 := fun hmem => hnin (h2 title hmem)
        simp [List.nodup_append, h1, hnin2]
      · intro t ht
        rcases List.mem_append.mp ht with ha | hb
        · exact List.mem_cons_of_mem title (h2 t ha)
        · simp at hb
          subst hb
          exact List.mem_cons_self t acc.1

theorem reminder_fold_origin (db : List EventRow) (channels roles : List Nat) :
    ∀ (titles : List String) (acc : List String × List String) (t : String),
      t ∈ (titles.foldl (reminderStep db channels roles) acc).2 →
      t ∈ acc.2 ∨ t ∈ titles := by
  intro titles
  induction titles with
  | nil =>
    intro acc t ht
    exact Or.inl ht
  | cons title rest ih =>
    intro acc t ht
    rw [List.foldl_cons] at ht
    rcases reminderStep_cases db channels roles acc title with hc | ⟨hnin, hc⟩
    · rw [hc] at ht
      rcases ih acc t ht with h1 | h2
      · exact Or.inl h1
      · exact Or.inr (List.mem_cons_of_mem title h2)
    · rw [hc] at ht
      rcases ih _ t ht with h1 | h2
      · rcases List.mem_append.mp h1 with ha | hb
        · exact Or.inl ha
        · simp at hb
          subst hb
          exact Or.inr (List.mem_cons_self t rest)
      · exact Or.inr (List.mem_cons_of_mem title h2)

theorem reminderPass_nodup (db : List EventRow) (fts : String)
    (channels roles : List Nat) : (reminderPass db fts channels roles).Nodup := by
  unfold reminderPass
  exact (reminder_fold_invariant db channels roles _ ([], []) (by simp) (by simp)).1

theorem reminderPass_time_matches (db : List EventRow) (fts : String)
    (channels roles : List Nat) (t : String)
    (ht : t ∈ reminderPass db fts channels roles) :
    ∃ r ∈ db, r.title = t ∧ r.time = fts := by
  unfold reminderPass at ht
  rcases reminder_fold_origin db channels roles _ ([], []) t ht with h1 | h2
  · simp at h1
  · rcases List.mem_map.mp h2 with ⟨r, hr, hrt⟩
    rcases List.mem_filter.mp hr with ⟨hmem, htime⟩
    exact ⟨r, hmem, hrt, by simpa using htime⟩
theorem toData_fields (r : EventRow) :
    (toData r).title = r.title ∧ (toData r).channel_id = r.channel_id ∧
      (toData r).role_id = r.role_id ∧ (toData r).host = r.host ∧
      (toData r).max_attendees = r.max_attendees := by
  simp [toData]

theorem promoteStep_cases (now : DT) (channels roles : List Nat)
    (acc : List EventRow × List String) (item : String × String × String) :
    promoteStep now channels roles acc item = acc ∨
      (parseDateTime item.2.1 item.2.2 ≠ none ∧
        (promoteStep now channels roles acc item).1 =
          updateRows acc.1 item.1 (fun r => { r with status := "Ongoing" }) ∧
        ((promoteStep now channels roles acc item).2 = acc.2 ++ [item.1] ∨
          (promoteStep now channels roles acc item).2 = acc.2)) := by
  unfold promoteStep
  rcases hget : get_event_data acc.1 item.1 with _ | d
  · exact Or.inl rfl
  · rcases hp : parseDateTime item.2.1 item.2.2 with _ | start
    · exact Or.inl rfl
    · by_cases hk : start.key ≤ now.key
      · by_cases hcr : d.channel_id ∈ channels ∧ roleFound roles d.role_id
        · right
          refine ⟨by simp [hp], ?_, Or.inl ?_⟩ <;> simp [hk, hcr]
        · right
          refine ⟨by simp [hp], ?_, Or.inr ?_⟩ <;> simp [hk, hcr]
      · exact Or.inl (by simp [hk])

theorem promote_fold_frame (now : DT) (channels roles : List Nat) :
    ∀ (items : List (String × String × String))
      (acc : List EventRow × List String) (t : String),
      (∀ x ∈ items, x.1 = t → parseDateTime x.2.1 x.2.2 = none) →
      getRow (items.foldl (promoteStep now channels roles) acc).1 t =
          getRow acc.1 t ∧
        (items.foldl (promoteStep now channels roles) acc).2.count t =
          acc.2.count t := by
  intro items
  induction items with
  | nil =>
    intro acc t h
    exact ⟨rfl, rfl⟩
  | cons x rest ih =>
    intro acc t h
    rw [List.foldl_cons]
    have hrest : ∀ y ∈ rest, y.1 = t → parseDateTime y.2.1 y.2.2 = none :=
      fun y hy => h y (List.mem_cons_of_mem x hy)
    rcases promoteStep_cases now channels roles acc x with hc | ⟨hp, hdb, hanns⟩
    · rw [hc]
      exact ih acc t hrest
    · have hxt : x.1 ≠ t := by
        intro hc2
        exact hp (h x (List.mem_cons_self x rest) hc2)
      rcases ih (promoteStep now channels roles acc x) t hrest with ⟨ih1, ih2⟩
      constructor
      · rw [ih1, hdb]
        exact getRow_updateRows_other acc.1 x.1 t _ (fun r => rfl) (fun hc2 => hxt hc2.symm)
      · rw [ih2]
        rcases hanns with ha | ha
        · rw [ha]
          simp [List.count_append, List.count_cons, hxt]
        · rw [ha]

theorem promote_fold_titles (now : DT) (channels roles : List Nat) :
    ∀ (items : List (String × String × String))
      (acc : List EventRow × List String),
      (items.foldl (promoteStep now channels roles) acc).1.map
          (fun r => r.title) =
        acc.1.map (fun r => r.title) := by
  intro items
  induction items with
  | nil =>
    intro acc
    rfl
  | cons x rest ih =>
    intro acc
    rw [List.foldl_cons]
    rw [ih]
    rcases promoteStep_cases now channels roles acc x with hc | ⟨hp, hdb, hanns⟩
    · rw [hc]
    · rw [hdb]
      exact map_updateRows acc.1 x.1 _ _ (fun r => rfl)

theorem promote_fold_origin (now : DT) (channels roles : List Nat) :
    ∀ (items : List (String × String × String))
      (acc : List EventRow × List String) (t : String),
      t ∈ (items.foldl (promoteStep now channels roles) acc).2 →
      t ∈ acc.2 ∨ t ∈ items.map (fun x => x.1) := by
  intro items
  induction items with
  | nil =>
    intro acc t ht
    exact Or.inl ht
  | cons x rest ih =>
    intro acc t ht
    rw [List.foldl_cons] at ht
    rcases promoteStep_cases now channels roles acc x with hc | ⟨hp, hdb, hanns⟩
    · rw [hc] at ht
      rcases ih acc t ht with h1 | h2
      · exact Or.inl h1
      · exact Or.inr (by simp [h2])
    · rcases ih _ t ht with h1 | h2
      · rcases hanns with ha | ha
        · rw [ha] at h1
          rcases List.mem_append.mp h1 with hb | hb
          · exact Or.inl hb
          · simp at hb
            subst hb
            exact Or.inr (by simp)
        · rw [ha] at h1
          exact Or.inl h1
      · exact Or.inr (by simp [h2])
theorem promoteStep_eval (now : DT) (channels roles : List Nat)
    (acc : List EventRow × List String) (item : String × String × String)
    (d : EventRow) (start : DT)
    (hget : get_event_data acc.1 item.1 = some d)
    (hp : parseDateTime item.2.1 item.2.2 = some start)
    (hk : start.key ≤ now.key)
    (hcond : d.channel_id ∈ channels ∧ roleFound roles d.role_id) :
    promoteStep now channels roles acc item =
      (updateRows acc.1 item.1 (fun r => { r with status := "Ongoing" }),
        acc.2 ++ [item.1]) := by
  unfold promoteStep
  rw [hget, hp]
  simp only [hk, if_true, hcond.1, hcond.2, and_self, ite_true]

theorem promote_fold_hit (now : DT) (channels roles : List Nat)
    (pre post : List (String × String × String)) (t ds ts : String)
    (acc : List EventRow × List String) (r : EventRow) (tk : DT)
    (hpre : ∀ x ∈ pre, x.1 ≠ t) (hpost : ∀ x ∈ post, x.1 ≠ t)
    (hget : getRow acc.1 t = some r)
    (hp : parseDateTime ds ts = some tk)
    (hk : tk.key ≤ now.key)
    (hch : r.channel_id ∈ channels)
    (hro : roleFound roles r.role_id = true) :
    getRow ((pre ++ (t, ds, ts) :: post).foldl
        (promoteStep now channels roles) acc).1 t =
        some { r with status := "Ongoing" } ∧
      ((pre ++ (t, ds, ts) :: post).foldl
        (promoteStep now channels roles) acc).2.count t =
        acc.2.count t + 1 := by
  rw [List.foldl_append, List.foldl_cons]
  rcases promote_fold_frame now channels roles pre acc t
      (fun x hx hxt => absurd hxt (hpre x hx)) with ⟨hf1, hf2⟩
  have hged : get_event_data
      (pre.foldl (promoteStep now channels roles) acc).1 t = some (toData r) := by
    unfold get_event_data
    rw [hf1, hget]
  have hcond : (toData r).channel_id ∈ channels ∧
      roleFound roles (toData r).role_id := by
    constructor
    · simpa [toData] using hch
    · simpa [toData] using hro
  have hstep := promoteStep_eval now channels roles
    (pre.foldl (promoteStep now channels roles) acc) (t, ds, ts)
    (toData r) tk hged hp hk hcond
  rw [hstep]
  rcases promote_fold_frame now channels roles post _ t
      (fun x hx hxt => absurd hxt (hpost x hx)) with ⟨hg1, hg2⟩
  constructor
  · rw [hg1]
    show getRow (updateRows (pre.foldl (promoteStep now channels roles) acc).1 t
      (fun r => { r with status := "Ongoing" })) t = some { r with status := "Ongoing" }
    rw [getRow_updateRows_self (pre.foldl (promoteStep now channels roles) acc).1 t
      (fun r => { r with status := "Ongoing" }) (fun r => rfl)]
    rw [hf1, hget]
    rfl
  · rw [hg2]
    show List.count t ((pre.foldl (promoteStep now channels roles) acc).2 ++ [t]) =
      acc.2.count t + 1
    simp [List.count_append, hf2]
/-- C6: the claim says a "starting soon" reminder is emitted only for
events whose status is Upcoming (and whose stored time matches the
30-minutes-from-now string).  False: the reminder query
`SELECT title FROM events WHERE time = ?` has no status filter, so an
Ongoing event with a matching stored time is also reminded.  Concretely,
a single Ongoing event whose time is 30 minutes after `now0` receives a
reminder. -/
theorem C6_counterexample :
    (check_event_reminders [{ baseRow with status := "Ongoing" }]
        now0 [1] [5]).reminders = ["E"] ∧
      ({ baseRow with status := "Ongoing" } : EventRow).status ≠ "Upcoming" ∧
      ({ baseRow with status := "Ongoing" } : EventRow).time = futureTimeStr now0 := by
  decide

/-- C6 (amended): in every scheduler tick, a "starting soon" reminder is
emitted only for events whose stored time-of-day string equals the
formatted time-of-day of the instant 30 minutes from now — regardless of
status — and at most one reminder is emitted per event within a single
tick. -/
theorem C6_reminder_amended (db : List EventRow) (now : DT)
    (channels roles : List Nat) (t : String) :
    (check_event_reminders db now channels roles).reminders.count t ≤ 1 ∧
      (t ∈ (check_event_reminders db now channels roles).reminders →
        ∃ r ∈ db, r.title = t ∧ r.time = futureTimeStr now) := by
  constructor
  · have h := reminderPass_nodup db (futureTimeStr now) channels roles
    exact List.nodup_iff_count_le_one.mp h t
  · intro ht
    exact reminderPass_time_matches db (futureTimeStr now) channels roles t ht

/-- Witness for C6 (amended) at a concrete input: the reminded title `E`
indeed belongs to a stored event whose time matches the future string. -/
theorem C6_witness :
    ∃ r ∈ [baseRow], r.title = "E" ∧ r.time = futureTimeStr now0 :=
  (C6_reminder_amended [baseRow] now0 [1] [5] "E").2 (by decide)
/-- C7: for an Upcoming event whose stored date and time parse to a start
instant at or before now (and whose channel and role resolve), one
scheduler tick sets its status to Ongoing and emits exactly one started
announcement; a second consecutive tick neither changes the status again
nor re-announces; and Upcoming events whose date+time fail to parse are
left untouched. -/
theorem C7_promotion (db : List EventRow) (now now2 : DT)
    (channels roles : List Nat) (t : String) (r : EventRow) (tk : DT)
    (hnd : (db.map (fun x => x.title)).Nodup)
    (hget : getRow db t = some r)
    (hst : r.status = "Upcoming")
    (hp : parseDateTime r.date r.time = some tk)
    (hk : tk.key ≤ now.key)
    (hch : r.channel_id ∈ channels)
    (hro : roleFound roles r.role_id = true) :
    getRow (check_event_reminders db now channels roles).db t =
        some { r with status := "Ongoing" } ∧
      (check_event_reminders db now channels roles).started.count t = 1 ∧
      (getRow (check_event_reminders
            (check_event_reminders db now channels roles).db
            now2 channels roles).db t =
          some { r with status := "Ongoing" } ∧
        t ∉ (check_event_reminders
            (check_event_reminders db now channels roles).db
            now2 channels roles).started) ∧
      (∀ t' r', getRow db t' = some r' → r'.status = "Upcoming" →
        parseDateTime r'.date r'.time = none →
        getRow (check_event_reminders db now channels roles).db t' = some r') := by
  have hrmem := getRow_mem db t r hget
  have hrfilter : r ∈ db.filter (fun x => x.status == "Upcoming") :=
    List.mem_filter.mpr ⟨hrmem.1, by simp [hst]⟩
  have hxmem : (t, r.date, r.time) ∈
      (db.filter (fun x => x.status == "Upcoming")).map
        (fun x => (x.title, x.date, x.time)) := by
    apply List.mem_map.mpr
    exact ⟨r, hrfilter, by rw [hrmem.2]⟩
  obtain ⟨pre, post, hsplit⟩ := List.append_of_mem hxmem
  have hmapeq : ((db.filter (fun x => x.status == "Upcoming")).map
      (fun x => (x.title, x.date, x.time))).map (fun x => x.1) =
      (db.filter (fun x => x.status == "Upcoming")).map (fun x => x.title) := by
    rw [List.map_map]
    rfl
  have hsub : List.Sublist ((db.filter (fun x => x.status == "Upcoming")).map
      (fun x => x.title)) (db.map (fun x => x.title)) :=
    (List.filter_sublist db).map (fun x => x.title)
  have hndItems : (((db.filter (fun x => x.status == "Upcoming")).map
      (fun x => (x.title, x.date, x.time))).map (fun x => x.1)).Nodup := by
    rw [hmapeq]
    exact hnd.sublist hsub
  rw [hsplit] at hndItems
  rw [List.map_append, List.map_cons] at hndItems
  have hnotpre : t ∉ pre.map (fun x => x.1) := by
    intro hc
    have hdisj := (List.nodup_append.mp hndItems).2.2
    exact hdisj hc (by simp)
  have hnotpost : t ∉ post.map (fun x => x.1) := by
    have h2 := (List.nodup_append.mp hndItems).2.1
    have := (List.nodup_cons.mp h2).1
    simpa using this
  have hpre : ∀ x ∈ pre, x.1 ≠ t := by
    intro x hx hc
    exact hnotpre (List.mem_map.mpr ⟨x, hx, hc⟩)
  have hpost : ∀ x ∈ post, x.1 ≠ t := by
    intro x hx hc
    exact hnotpost (List.mem_map.mpr ⟨x, hx, hc⟩)
  have hhit := promote_fold_hit now channels roles pre post t r.date r.time
    (db, []) r tk hpre hpost hget hp hk hch hro
  have hpp : promotePass db now channels roles =
      (pre ++ (t, r.date, r.time) :: post).foldl
        (promoteStep now channels roles) (db, []) := by
    unfold promotePass
    rw [hsplit]
  have hc1 : getRow (promotePass db now channels roles).1 t =
      some { r with status := "Ongoing" } := by
    rw [hpp]
    exact hhit.1
  have hc2 : (promotePass db now channels roles).2.count t = 1 := by
    rw [hpp]
    rw [hhit.2]
    simp
  refine ⟨hc1, hc2, ?_, ?_⟩
  · -- second tick
    have hdb1titles : (promotePass db now channels roles).1.map (fun x => x.title) =
        db.map (fun x => x.title) := by
      unfold promotePass
      exact promote_fold_titles now channels roles _ (db, [])
    have hnd1 : ((promotePass db now channels roles).1.map (fun x => x.title)).Nodup := by
      rw [hdb1titles]
      exact hnd
    have hnotin2 : t ∉ (((promotePass db now channels roles).1.filter
        (fun x => x.status == "Upcoming")).map
        (fun x => (x.title, x.date, x.time))).map (fun x => x.1) := by
      intro hc
      rw [List.map_map] at hc
      rcases List.mem_map.mp hc with ⟨r2, hr2, hr2t⟩
      rcases List.mem_filter.mp hr2 with ⟨hr2mem, hr2st⟩
      have hr2t' : r2.title = t := hr2t
      have hthis : getRow (promotePass db now channels roles).1 r2.title = some r2 :=
        getRow_nodup _ r2 hnd1 hr2mem
      rw [hr2t'] at hthis
      rw [hc1] at hthis
      have hr2eq : r2 = { r with status := "Ongoing" } := by
        injection hthis.symm with h
      rw [hr2eq] at hr2st
      simp at hr2st
    have hcond2 : ∀ x ∈ ((promotePass db now channels roles).1.filter
        (fun x => x.status == "Upcoming")).map
        (fun x => (x.title, x.date, x.time)), x.1 = t →
        parseDateTime x.2.1 x.2.2 = none := by
      intro x hx hxt
      exact absurd (List.mem_map.mpr ⟨x, hx, hxt⟩) hnotin2
    rcases promote_fold_frame now2 channels roles _
      ((promotePass db now channels roles).1, []) t hcond2 with ⟨hfr1, _⟩
    have hpp2 : promotePass (promotePass db now channels roles).1
        now2 channels roles =
        (((promotePass db now channels roles).1.filter
          (fun x => x.status == "Upcoming")).map
          (fun x => (x.title, x.date, x.time))).foldl
          (promoteStep now2 channels roles)
          ((promotePass db now channels roles).1, []) := rfl
    constructor
    · show getRow (promotePass (promotePass db now channels roles).1
        now2 channels roles).1 t = some { r with status := "Ongoing" }
      rw [hpp2, hfr1]
      exact hc1
    · show t ∉ (promotePass (promotePass db now channels roles).1
        now2 channels roles).2
      intro hc
      rw [hpp2] at hc
      rcases promote_fold_origin now2 channels roles _
        ((promotePass db now channels roles).1, []) t hc with h1 | h2
      · simp at h1
      · exact hnotin2 h2
  · -- unparseable events are untouched
    intro t' r' hget' hst' hp'
    have hcond : ∀ x ∈ (db.filter (fun x => x.status == "Upcoming")).map
        (fun x => (x.title, x.date, x.time)), x.1 = t' →
        parseDateTime x.2.1 x.2.2 = none := by
      intro x hx hxt
      rcases List.mem_map.mp hx with ⟨rr, hrr, hrrx⟩
      rcases List.mem_filter.mp hrr with ⟨hrrmem, _⟩
      have hgr : getRow db rr.title = some rr := getRow_nodup db rr hnd hrrmem
      have hrrt : rr.title = t' := by
        rw [← hxt, ← hrrx]
      rw [hrrt, hget'] at hgr
      have hrreq : rr = r' := by
        injection hgr with h
        exact h.symm
      rw [← hrrx]
      show parseDateTime rr.date rr.time = none
      rw [hrreq]
      exact hp'
    rcases promote_fold_frame now channels roles _ (db, []) t' hcond with ⟨hfr1, _⟩
    show getRow (promotePass db now channels roles).1 t' = some r'
    unfold promotePass
    rw [hfr1]
    exact hget'
/-- Witness for C7 at a concrete input: one tick over a single past-due
Upcoming event marks it Ongoing. -/
theorem C7_witness :
    getRow (check_event_reminders [baseRow] nowLate [1] [5]).db "E" =
      some { baseRow with status := "Ongoing" } :=
  (C7_promotion [baseRow] nowLate nowLate [1] [5] "E" baseRow
    ⟨2030, 1, 1, 10, 30⟩ (by decide) (by decide) (by decide) (by decide)
    (by decide) (by decide) (by decide)).1
theorem get_event_data_none_getRow (db : List EventRow) (title : String)
    (h : get_event_data db title = none) : getRow db title = none := by
  unfold get_event_data at h
  rcases hg : getRow db title with _ | r
  · rfl
  · rw [hg] at h
    simp at h

/-- C1: a create call with a fresh title, a parsing date and a parsing
time succeeds, and afterwards `get(title)` returns a record with status
Upcoming, attendee list exactly the host, and capacity as given when
positive or null when zero or omitted. -/
theorem C1_create_fresh_event (db : List EventRow) (g : Guild)
    (title date timeS desc : String) (cap : Option Int) (hostUser : String)
    (channelId : Nat) (nowStr msgId : String)
    (hfresh : get_event_data db title = none)
    (hd : (parseDate date).isSome = true)
    (ht : (parseHM timeS).isSome = true)
    (hm : isMention hostUser = true) :
    (host_event db g title date timeS desc cap hostUser channelId
        nowStr msgId).res = .created ∧
      ∃ d, get_event_data (host_event db g title date timeS desc cap hostUser
          channelId nowStr msgId).db title = some d ∧
        d.status = "Upcoming" ∧
        d.attendees = hostUser ∧
        pySplit d.attendees = [hostUser] ∧
        (∀ c : Int, cap = some c → 0 < c → d.max_attendees = some c) ∧
        ((cap = none ∨ cap = some 0) → d.max_attendees = none) := by
  have hfresh' : getRow db title = none := get_event_data_none_getRow db title hfresh
  rcases hdp : parseDate date with _ | dmy
  · rw [hdp] at hd
    simp at hd
  rcases htp : parseHM timeS with _ | hmi
  · rw [htp] at ht
    simp at ht
  obtain ⟨d0, m0, y0⟩ := dmy
  obtain ⟨hh, mi⟩ := hmi
  have hout : host_event db g title date timeS desc cap hostUser channelId
      nowStr msgId =
      ⟨updateRows (db ++ [EventRow.mk title (formatDateDMY d0 m0 y0)
          (formatTimeUTC hh mi) desc hostUser "" (some g.nextRoleId)
          channelId hostUser "Upcoming" nowStr (normCap cap)]) title
          (fun r => { r with message_id := msgId }),
        ⟨g.roles ++ [g.nextRoleId], g.nextRoleId + 1⟩, .created⟩ := by
    unfold host_event
    rw [hfresh, hdp, htp]
    rfl
  rw [hout]
  refine ⟨rfl, ?_⟩
  have hrowget : getRow (db ++ [EventRow.mk title (formatDateDMY d0 m0 y0)
      (formatTimeUTC hh mi) desc hostUser "" (some g.nextRoleId)
      channelId hostUser "Upcoming" nowStr (normCap cap)]) title =
      some (EventRow.mk title (formatDateDMY d0 m0 y0)
        (formatTimeUTC hh mi) desc hostUser "" (some g.nextRoleId)
        channelId hostUser "Upcoming" nowStr (normCap cap)) := by
    rw [getRow_append_right db _ title hfresh']
    simp
  have hupd : getRow (updateRows (db ++ [EventRow.mk title
      (formatDateDMY d0 m0 y0) (formatTimeUTC hh mi) desc hostUser ""
      (some g.nextRoleId) channelId hostUser "Upcoming" nowStr
      (normCap cap)]) title (fun r => { r with message_id := msgId }))
      title =
      some (EventRow.mk title (formatDateDMY d0 m0 y0)
        (formatTimeUTC hh mi) desc hostUser msgId (some g.nextRoleId)
        channelId hostUser "Upcoming" nowStr (normCap cap)) := by
    rw [getRow_updateRows_self _ title
      (fun r => { r with message_id := msgId }) (fun r => rfl), hrowget]
    rfl
  have hne : hostUser ≠ "" := isMention_ne_empty hostUser hm
  refine ⟨EventRow.mk title (formatDateDMY d0 m0 y0) (formatTimeUTC hh mi)
      desc hostUser msgId (some g.nextRoleId) channelId hostUser "Upcoming"
      nowStr (normCap cap), ?_, rfl, rfl, ?_, ?_, ?_⟩
  · show get_event_data _ title = _
    unfold get_event_data
    rw [hupd]
    unfold toData
    simp [hne]
  · exact pySplit_single hostUser (isMention_no_hasCS hostUser hm)
  · intro c hc hpos
    subst hc
    show normCap (some c) = some c
    have hcle : ¬ c ≤ 0 := by omega
    simp [normCap, hcle]
  · intro hc
    rcases hc with h0 | h0
    · subst h0
      rfl
    · subst h0
      show normCap (some 0) = none
      simp [normCap]

/-- Witness for C1 at a concrete input: creating an event in an empty
database with capacity 3 stores it with status Upcoming, the host as the
sole attendee, and capacity 3. -/
theorem C1_witness :
    (host_event [] ⟨[], 0⟩ "T" "01-01-2030" "10:30" "hello" (some 3) "<@1>"
        7 "2025-01-01 00:00:00" "42").res = .created ∧
      ∃ d, get_event_data (host_event [] ⟨[], 0⟩ "T" "01-01-2030" "10:30"
          "hello" (some 3) "<@1>" 7 "2025-01-01 00:00:00" "42").db "T" =
          some d ∧
        d.status = "Upcoming" ∧
        d.attendees = "<@1>" ∧
        pySplit d.attendees = ["<@1>"] ∧
        (∀ c : Int, (some 3 : Option Int) = some c → 0 < c →
          d.max_attendees = some c) ∧
        (((some 3 : Option Int) = none ∨ (some 3 : Option Int) = some 0) →
          d.max_attendees = none) :=
  C1_create_fresh_event [] ⟨[], 0⟩ "T" "01-01-2030" "10:30" "hello" (some 3)
    "<@1>" 7 "2025-01-01 00:00:00" "42" (by decide) (by decide) (by decide)
    (by decide)
theorem attList_sentinel : attList sentinel = [sentinel] := by decide

theorem capFull_true (c : Int) (n : Nat) (h0 : c ≠ 0) (hle : c ≤ (n : Int)) :
    capFull (some c) n = true := by
  simp [capFull, h0, hle]

/-- C2: a Join on an event with a (positive) capacity, by a mention actor
not already in the stored attendee list, while the host-inclusive
attendee count is at least the capacity, is rejected as full and leaves
the database unchanged. -/
theorem C2_join_capacity_reject (db : List EventRow) (g : Guild)
    (title actor : String) (r : EventRow) (c : Int)
    (hget : getRow db title = some r)
    (hcap : r.max_attendees = some c)
    (hcpos : 0 < c)
    (hmact : isMention actor = true)
    (hnotin : actor ∉ storedAttendees r)
    (hfull : c ≤ (hostInclusiveCount r : Int)) :
    participate_callback db g title actor = ⟨db, g, .full⟩ := by
  have hged : get_event_data db title = some (toData r) := by
    unfold get_event_data
    rw [hget]
  have hc0 : c ≠ 0 := by omega
  have hmax : (toData r).max_attendees = some c := hcap
  by_cases hemp : r.attendees = ""
  · have hl0 : attList (toData r).attendees = [sentinel] := by
      simp [toData, hemp, attList_sentinel]
    have hstored : storedAttendees r = [] := by
      simp [storedAttendees, attList, hemp]
    have hcount : hostInclusiveCount r = 1 := by
      simp [hostInclusiveCount, hstored]
    have hc1 : c = 1 := by
      rw [hcount] at hfull
      omega
    have hnact : actor ∉ ([sentinel] : List String) := by
      simp
      exact isMention_ne_sentinel actor hmact
    simp only [participate_callback, hged, hl0]
    rw [if_neg hnact]
    by_cases hhost : (toData r).host ∈ ([sentinel] : List String)
    · have hcf : capFull (toData r).max_attendees
          ([sentinel] : List String).length = true := by
        rw [hmax]
        exact capFull_true c 1 hc0 (by omega)
      rw [if_pos hhost, if_pos hcf]
    · have hcf : capFull (toData r).max_attendees
          ([(toData r).host, sentinel] : List String).length = true := by
        rw [hmax]
        exact capFull_true c 2 hc0 (by omega)
      rw [if_neg hhost, if_pos hcf]
  · have hl0 : attList (toData r).attendees = storedAttendees r := by
      simp [toData, hemp, storedAttendees]
    simp only [participate_callback, hged, hl0]
    rw [if_neg hnotin]
    by_cases hhost : (toData r).host ∈ storedAttendees r
    · have hlen : c ≤ ((storedAttendees r).length : Int) := by
        have hin : r.host ∈ storedAttendees r := hhost
        unfold hostInclusiveCount at hfull
        rw [if_pos hin] at hfull
        omega
      have hcf : capFull (toData r).max_attendees
          (storedAttendees r).length = true := by
        rw [hmax]
        exact capFull_true c _ hc0 hlen
      rw [if_pos hhost, if_pos hcf]
    · have hlen : c ≤ (((toData r).host :: storedAttendees r).length : Int) := by
        have hnin : r.host ∉ storedAttendees r := hhost
        unfold hostInclusiveCount at hfull
        rw [if_neg hnin] at hfull
        simp only [List.length_cons]
        omega
      have hcf : capFull (toData r).max_attendees
          ((toData r).host :: storedAttendees r).length = true := by
        rw [hmax]
        exact capFull_true c _ hc0 hlen
      rw [if_neg hhost, if_pos hcf]

/-- Witness for C2 at a concrete input: a second participant cannot join
a capacity-1 event. -/
theorem C2_witness :
    participate_callback [{ baseRow with max_attendees := some 1 }] ⟨[5], 6⟩
        "E" "<@2>" =
      ⟨[{ baseRow with max_attendees := some 1 }], ⟨[5], 6⟩, .full⟩ :=
  C2_join_capacity_reject [{ baseRow with max_attendees := some 1 }] ⟨[5], 6⟩
    "E" "<@2>" { baseRow with max_attendees := some 1 } 1 (by decide)
    (by decide) (by decide) (by decide) (by decide) (by decide)
/-- C10: when the stored attendee column is the empty string,
`get_event_data` returns the literal sentinel string; a subsequent Join
splits this sentinel into the attendee list — counting it as a
participant toward capacity (a capacity of 2 is already full even though
nobody but the host is stored) — and, when the join succeeds, persists
the sentinel back into the stored list. -/
theorem C10_sentinel_join (db : List EventRow) (g : Guild)
    (title actor : String) (r : EventRow)
    (hget : getRow db title = some r)
    (hemp : r.attendees = "")
    (hmact : isMention actor = true)
    (hmhost : isMention r.host = true) :
    (get_event_data db title).map (fun d => d.attendees) = some sentinel ∧
      (r.max_attendees = none →
        (participate_callback db g title actor).res = .joined ∧
        (getRow (participate_callback db g title actor).db title).map
            (fun x => x.attendees) =
          some (pyJoin [r.host, sentinel, actor])) ∧
      (∀ c : Int, r.max_attendees = some c → 0 < c → c ≤ 2 →
        participate_callback db g title actor = ⟨db, g, .full⟩) := by
  have hged : get_event_data db title = some (toData r) := by
    unfold get_event_data
    rw [hget]
  have hl0 : attList (toData r).attendees = [sentinel] := by
    simp [toData, hemp, attList_sentinel]
  have hnact : actor ∉ ([sentinel] : List String) := by
    simp
    exact isMention_ne_sentinel actor hmact
  have hnhost : (toData r).host ∉ ([sentinel] : List String) := by
    simp
    exact isMention_ne_sentinel r.host hmhost
  refine ⟨?_, ?_, ?_⟩
  · rw [hged]
    simp [toData, hemp]
  · intro hcapn
    have hcf : capFull (toData r).max_attendees
        ([(toData r).host, sentinel] : List String).length = false := by
      have : (toData r).max_attendees = none := hcapn
      rw [this]
      rfl
    have hjoin : participate_callback db g title actor =
        (let db1 := updateRows db title (fun x =>
          { x with attendees := pyJoin [(toData r).host, sentinel, actor] })
        if roleFound g.roles (toData r).role_id then
          (⟨db1, g, .joined⟩ : JoinOut)
        else
          ⟨updateRows db1 title (fun x => { x with role_id := some g.nextRoleId }),
            ⟨g.roles ++ [g.nextRoleId], g.nextRoleId + 1⟩, .joined⟩) := by
      simp only [participate_callback, hged, hl0]
      rw [if_neg hnact, if_neg hnhost]
      rw [if_neg (by rw [hcf]; simp)]
      rfl
    rw [hjoin]
    have hhosteq : (toData r).host = r.host := rfl
    by_cases hrole : roleFound g.roles (toData r).role_id
    · rw [if_pos hrole]
      refine ⟨rfl, ?_⟩
      rw [getRow_updateRows_self db title (fun x =>
        { x with attendees := pyJoin [(toData r).host, sentinel, actor] })
        (fun x => rfl), hget]
      simp [hhosteq]
    · rw [if_neg hrole]
      refine ⟨rfl, ?_⟩
      rw [getRow_updateRows_self (updateRows db title (fun x =>
        { x with attendees := pyJoin [(toData r).host, sentinel, actor] }))
        title (fun x => { x with role_id := some g.nextRoleId })
        (fun x => rfl)]
      rw [getRow_updateRows_self db title (fun x =>
        { x with attendees := pyJoin [(toData r).host, sentinel, actor] })
        (fun x => rfl), hget]
      simp [hhosteq]
  · intro c hcap hcpos hcle
    have hcf : capFull (toData r).max_attendees
        ([(toData r).host, sentinel] : List String).length = true := by
      have hmax : (toData r).max_attendees = some c := hcap
      rw [hmax]
      exact capFull_true c 2 (by omega) (by push_cast; omega)
    simp only [participate_callback, hged, hl0]
    rw [if_neg hnact, if_neg hnhost, if_pos hcf]
/-- Witness for C10 at a concrete input: with an empty stored attendee
column, the dictionary shows the sentinel, and a join persists
`"<@1>, No participants yet, <@2>"`. -/
theorem C10_witness :
    (get_event_data [{ baseRow with attendees := "" }] "E").map
        (fun d => d.attendees) = some sentinel ∧
      (participate_callback [{ baseRow with attendees := "" }] ⟨[5], 6⟩
        "E" "<@2>").res = .joined ∧
      (getRow (participate_callback [{ baseRow with attendees := "" }]
          ⟨[5], 6⟩ "E" "<@2>").db "E").map (fun x => x.attendees) =
        some "<@1>, No participants yet, <@2>" := by
  have h := C10_sentinel_join [{ baseRow with attendees := "" }] ⟨[5], 6⟩
    "E" "<@2>" { baseRow with attendees := "" } (by decide) (by decide)
    (by decide) (by decide)
  refine ⟨h.1, (h.2.1 (by decide)).1, ?_⟩
  have h2 := (h.2.1 (by decide)).2
  rw [h2]
  decide
theorem attList_toData_ne_nil (x : EventRow) :
    attList (toData x).attendees ≠ [] := by
  unfold toData attList
  by_cases hx : x.attendees = ""
  · simp only [hx, if_pos rfl]
    have hs : sentinel ≠ "" := by decide
    simp [hs]
    exact pySplit_ne_nil sentinel
  · simp only [if_neg hx]
    simp [hx]
    exact pySplit_ne_nil x.attendees

/-- C8: a Leave never clears any event's marker: the deletion branch in
`LeaveButton.callback` requires the re-read attendee list to be empty,
but `get_event_data` substitutes the sentinel for an empty column, so the
re-read list is never empty and the `role_id` column (and the guild role
set) are always left unchanged — in particular a Leave never deletes a
marker the host still logically holds. -/
theorem C8_leave_never_deletes_marker (db : List EventRow)
    (guildRoles : List Nat) (title actor : String) :
    ((leave_callback db guildRoles title actor).db).map (fun x => x.role_id) =
        db.map (fun x => x.role_id) ∧
      (leave_callback db guildRoles title actor).roles = guildRoles := by
  rcases hged : get_event_data db title with _ | d
  · simp only [leave_callback, hged]
    exact ⟨by trivial, by trivial⟩
  · simp only [leave_callback, hged]
    by_cases hhost : actor = d.host
    · rw [if_pos hhost]
      exact ⟨rfl, by trivial⟩
    · rw [if_neg hhost]
      by_cases hmem : actor ∈ attList d.attendees
      · rw [if_pos hmem]
        have hrole_pres : (updateRows db title (fun x =>
            { x with attendees := pyJoin ((attList d.attendees).erase actor) })).map
            (fun x => x.role_id) = db.map (fun x => x.role_id) :=
          map_updateRows db title _ _ (fun x => rfl)
        by_cases hrf : roleFound guildRoles d.role_id
        · rw [if_pos hrf]
          rcases hged1 : get_event_data (updateRows db title (fun x =>
              { x with attendees := pyJoin ((attList d.attendees).erase actor) }))
              title with _ | d1
          · simp only [hged1]
            exact ⟨hrole_pres, by trivial⟩
          · simp only [hged1]
            have hne : attList d1.attendees ≠ [] := by
              unfold get_event_data at hged1
              rcases hg1 : getRow (updateRows db title (fun x =>
                  { x with attendees := pyJoin ((attList d.attendees).erase actor) }))
                  title with _ | row1
              · rw [hg1] at hged1
                simp at hged1
              · rw [hg1] at hged1
                injection hged1 with h1
                rw [← h1]
                exact attList_toData_ne_nil row1
            rw [if_neg (fun hc => hne hc.1)]
            exact ⟨hrole_pres, by trivial⟩
        · rw [if_neg hrf]
          exact ⟨hrole_pres, by trivial⟩
      · rw [if_neg hmem]
        exact ⟨rfl, by trivial⟩
theorem get_event_data_of_getRow_none (db : List EventRow) (title : String)
    (h : getRow db title = none) : get_event_data db title = none := by
  unfold get_event_data
  rw [h]

/-- C5: completing an existing event as its host or an admin succeeds and
deletes the record — `get(title)` returns none afterwards — and a second
Complete on the same title is rejected as not found and mutates
nothing. -/
theorem C5_complete_deletes (db : List EventRow) (actor : String)
    (isAdmin : Bool) (title : String) (mo : Bool) (d : EventRow)
    (hget : getRow db title = some d)
    (hauth : actor = d.host ∨ isAdmin = true) :
    (complete_callback db actor isAdmin title mo).res = .completed ∧
      get_event_data (complete_callback db actor isAdmin title mo).db
        title = none ∧
      complete_callback (complete_callback db actor isAdmin title mo).db
          actor isAdmin title mo =
        ⟨(complete_callback db actor isAdmin title mo).db, .notFound⟩ := by
  have hged : get_event_data db title = some (toData d) := by
    unfold get_event_data
    rw [hget]
  have hauth2 : actor = (toData d).host ∨ isAdmin = true := hauth
  cases mo with
  | false =>
    have hc : complete_callback db actor isAdmin title false =
        ⟨deleteRows (updateRows db title
          (fun x => { x with status := "Completed" })) title, .completed⟩ := by
      simp only [complete_callback, hged]
      rw [if_pos hauth2]
      rfl
    have hnone : get_event_data (complete_callback db actor isAdmin title
        false).db title = none := by
      rw [hc]
      exact get_event_data_of_getRow_none _ title (getRow_deleteRows_self _ title)
    refine ⟨by rw [hc], hnone, ?_⟩
    rw [hc] at hnone
    rw [hc]
    simp only [complete_callback, hnone]
  | true =>
    have hc : complete_callback db actor isAdmin title true =
        ⟨deleteRows (updateRows (updateRows db title
            (fun x => { x with status := "Completed" })) title
          (fun x => { x with role_id := none })) title, .completed⟩ := by
      simp only [complete_callback, hged]
      rw [if_pos hauth2]
      rfl
    have hnone : get_event_data (complete_callback db actor isAdmin title
        true).db title = none := by
      rw [hc]
      exact get_event_data_of_getRow_none _ title (getRow_deleteRows_self _ title)
    refine ⟨by rw [hc], hnone, ?_⟩
    rw [hc] at hnone
    rw [hc]
    simp only [complete_callback, hnone]

/-- Witness for C5 at a concrete input: the host completes the event; the
record is gone and a second complete reports not found. -/
theorem C5_witness :
    (complete_callback [baseRow] "<@1>" false "E" false).res = .completed ∧
      get_event_data (complete_callback [baseRow] "<@1>" false "E"
        false).db "E" = none ∧
      complete_callback (complete_callback [baseRow] "<@1>" false "E"
          false).db "<@1>" false "E" false =
        ⟨(complete_callback [baseRow] "<@1>" false "E" false).db,
          .notFound⟩ :=
  C5_complete_deletes [baseRow] "<@1>" false "E" false baseRow (by decide)
    (Or.inl (by decide))
/-- C9: the claim adds to the frame property that the old host remains in
the stored attendee list after a transfer.  False: `transferhost` only
requires the NEW host to be in the stored list; when the old host is not
stored (reachable, e.g. after `/edit remove` of the host mention), the
transfer succeeds and the old host is not in the stored list
afterwards. -/
theorem C9_counterexample :
    ({ baseRow with attendees := "<@2>" } : EventRow).host = "<@1>" ∧
      (transferhost [{ baseRow with attendees := "<@2>" }] "<@1>" false
        "<@2>" "E").res = .ok ∧
      (getRow (transferhost [{ baseRow with attendees := "<@2>" }] "<@1>"
          false "<@2>" "E").db "E").map (fun x => x.attendees) =
        some "<@2>" ∧
      "<@1>" ∉ attList "<@2>" := by
  decide

/-- C9 (amended): a successful TransferHost changes only the host field:
the record returned by `get(title)` afterwards is the old record with
just the host replaced (attendees, date, time, description, capacity,
status, marker id, card fields unchanged), rows with other titles are
untouched, and in particular the old host is in the stored attendee list
after the transfer exactly when it was there before. -/
theorem C9_transferhost_frame_amended (db : List EventRow) (actor : String)
    (isAdmin : Bool) (newHost title : String) (d : EventRow)
    (hget : getRow db title = some d)
    (hauth : actor = d.host ∨ isAdmin = true)
    (hpart : newHost ∈ attList (toData d).attendees) :
    (transferhost db actor isAdmin newHost title).res = .ok ∧
      getRow (transferhost db actor isAdmin newHost title).db title =
        some { d with host := newHost } ∧
      deleteRows (transferhost db actor isAdmin newHost title).db title =
        deleteRows db title ∧
      (d.host ∈ storedAttendees d ↔
        d.host ∈ storedAttendees { d with host := newHost }) := by
  have hged : get_event_data db title = some (toData d) := by
    unfold get_event_data
    rw [hget]
  have hauth2 : actor = (toData d).host ∨ isAdmin = true := hauth
  have ht : transferhost db actor isAdmin newHost title =
      ⟨updateRows db title (fun x => { x with host := newHost }), .ok⟩ := by
    simp only [transferhost, hged]
    rw [if_pos hauth2, if_pos hpart]
  rw [ht]
  refine ⟨rfl, ?_, ?_, Iff.rfl⟩
  · rw [getRow_updateRows_self db title
      (fun x => { x with host := newHost }) (fun x => rfl), hget]
    rfl
  · exact deleteRows_updateRows db title
      (fun x => { x with host := newHost }) (fun x => rfl)

/-- Witness for C9 (amended) at a concrete input: transferring to a
stored participant rewrites only the host field. -/
theorem C9_witness :
    getRow (transferhost [{ baseRow with attendees := "<@1>, <@2>" }]
        "<@1>" false "<@2>" "E").db "E" =
      some { baseRow with attendees := "<@1>, <@2>", host := "<@2>" } :=
  (C9_transferhost_frame_amended [{ baseRow with attendees := "<@1>, <@2>" }]
    "<@1>" false "<@2>" "E" { baseRow with attendees := "<@1>, <@2>" }
    (by decide) (Or.inl (by decide)) (by decide)).2.1
/-- C3: the claim says a create with negative capacity is rejected before
any mutation.  False: `host_event` normalizes `max_attendees <= 0` to
`None` and proceeds — with capacity -1 the event is created and stored
with unlimited capacity. -/
theorem C3_counterexample :
    (host_event [] ⟨[], 0⟩ "T" "01-01-2030" "10:30" "hello" (some (-1))
        "<@1>" 7 "2025-01-01 00:00:00" "42").res = .created ∧
      (getRow (host_event [] ⟨[], 0⟩ "T" "01-01-2030" "10:30" "hello"
          (some (-1)) "<@1>" 7 "2025-01-01 00:00:00" "42").db "T").map
        (fun x => x.max_attendees) = some none := by
  decide

/-- C3 (amended): a create call with a fresh title, parsing date/time and
a negative capacity is NOT rejected: it succeeds, inserts the record, and
stores the capacity as null (unlimited). -/
theorem C3_negative_capacity_amended (db : List EventRow) (g : Guild)
    (title date timeS desc : String) (c : Int) (hostUser : String)
    (channelId : Nat) (nowStr msgId : String)
    (hfresh : get_event_data db title = none)
    (hd : (parseDate date).isSome = true)
    (ht : (parseHM timeS).isSome = true)
    (hneg : c < 0) :
    (host_event db g title date timeS desc (some c) hostUser channelId
        nowStr msgId).res = .created ∧
      (getRow (host_event db g title date timeS desc (some c) hostUser
          channelId nowStr msgId).db title).map
        (fun x => x.max_attendees) = some none := by
  have hfresh' : getRow db title = none := get_event_data_none_getRow db title hfresh
  rcases hdp : parseDate date with _ | dmy
  · rw [hdp] at hd
    simp at hd
  rcases htp : parseHM timeS with _ | hmi
  · rw [htp] at ht
    simp at ht
  obtain ⟨d0, m0, y0⟩ := dmy
  obtain ⟨hh, mi⟩ := hmi
  have hnorm : normCap (some c) = none := by
    have : c ≤ 0 := by omega
    simp [normCap, this]
  have hout : host_event db g title date timeS desc (some c) hostUser
      channelId nowStr msgId =
      ⟨updateRows (db ++ [EventRow.mk title (formatDateDMY d0 m0 y0)
          (formatTimeUTC hh mi) desc hostUser "" (some g.nextRoleId)
          channelId hostUser "Upcoming" nowStr (normCap (some c))]) title
          (fun r => { r with message_id := msgId }),
        ⟨g.roles ++ [g.nextRoleId], g.nextRoleId + 1⟩, .created⟩ := by
    unfold host_event
    rw [hfresh, hdp, htp]
    rfl
  rw [hout]
  refine ⟨rfl, ?_⟩
  rw [getRow_updateRows_self _ title
    (fun r => { r with message_id := msgId }) (fun r => rfl)]
  rw [getRow_append_right db _ title hfresh']
  simp [hnorm]

/-- Witness for C3 (amended) at a concrete input: creating with capacity
-1 succeeds and stores a null capacity. -/
theorem C3_witness :
    (host_event [] ⟨[], 0⟩ "W" "02-02-2031" "08:05" "hi" (some (-1))
        "<@9>" 3 "2025-01-01 00:00:00" "7").res = .created ∧
      (getRow (host_event [] ⟨[], 0⟩ "W" "02-02-2031" "08:05" "hi"
          (some (-1)) "<@9>" 3 "2025-01-01 00:00:00" "7").db "W").map
        (fun x => x.max_attendees) = some none :=
  C3_negative_capacity_amended [] ⟨[], 0⟩ "W" "02-02-2031" "08:05" "hi"
    (-1) "<@9>" 3 "2025-01-01 00:00:00" "7" (by decide) (by decide)
    (by decide) (by decide)
theorem pySplit_noCS (s : String) : ∀ x ∈ pySplit s, hasCS x.data = false := by
  intro x hx
  unfold pySplit at hx
  rcases List.mem_map.mp hx with ⟨l, hl, hlx⟩
  subst hlx
  exact hasCS_of_mem_splitCS s.data l hl

theorem pyJoin_cons_cons_ne_empty (x y : String) (t : List String) :
    pyJoin (x :: y :: t) ≠ "" := by
  intro hc
  have hdata : joinCS (x.data :: y.data :: t.map String.data) = [] := by
    have := congrArg String.data hc
    exact this
  rw [joinCS_cons_cons] at hdata
  rcases List.append_eq_nil.mp hdata with ⟨h1, h2⟩
  simp at h2

theorem leave_callback_eval (db : List EventRow) (roles : List Nat)
    (title actor : String) (d1 : EventRow)
    (hged : get_event_data db title = some d1)
    (hnh : actor ≠ d1.host)
    (hmem : actor ∈ attList d1.attendees) :
    (leave_callback db roles title actor).res = .left ∧
      (leave_callback db roles title actor).db =
        updateRows db title (fun x =>
          { x with attendees := pyJoin ((attList d1.attendees).erase actor) }) := by
  simp only [leave_callback, hged]
  rw [if_neg hnh, if_pos hmem]
  by_cases hrf : roleFound roles d1.role_id
  · rw [if_pos hrf]
    rcases hged1 : get_event_data (updateRows db title (fun x =>
        { x with attendees := pyJoin ((attList d1.attendees).erase actor) }))
        title with _ | d2
    · simp only [hged1]
      exact ⟨by trivial, by trivial⟩
    · simp only [hged1]
      have hne : attList d2.attendees ≠ [] := by
        unfold get_event_data at hged1
        rcases hg1 : getRow (updateRows db title (fun x =>
            { x with attendees := pyJoin ((attList d1.attendees).erase actor) }))
            title with _ | row1
        · rw [hg1] at hged1
          simp at hged1
        · rw [hg1] at hged1
          injection hged1 with h1
          rw [← h1]
          exact attList_toData_ne_nil row1
      rw [if_neg (fun hc => hne hc.1)]
      exact ⟨by trivial, by trivial⟩
  · rw [if_neg hrf]
    exact ⟨by trivial, by trivial⟩
theorem pyJoin_append_singleton_ne_empty (L : List String) (a : String)
    (hL : L ≠ []) : pyJoin (L ++ [a]) ≠ "" := by
  rcases L with _ | ⟨x, rest⟩
  · exact absurd rfl hL
  · rcases hs : rest ++ [a] with _ | ⟨y, t⟩
    · simp at hs
    · rw [List.cons_append, hs]
      exact pyJoin_cons_cons_ne_empty x y t

theorem joinleave_aux (db2 : List EventRow) (roles2 : List Nat)
    (title actor : String) (r r1 : EventRow)
    (hDB : getRow db2 title = some r1)
    (hr1att : r1.attendees = pyJoin (storedAttendees r ++ [actor]))
    (hr1host : r1.host = r.host)
    (hstq : storedAttendees r = pySplit r.attendees)
    (hhostin : r.host ∈ storedAttendees r)
    (hnotin : actor ∉ storedAttendees r)
    (hmact : isMention actor = true)
    (hahost : actor ≠ r.host) :
    (leave_callback db2 roles2 title actor).res = .left ∧
      (getRow (leave_callback db2 roles2 title actor).db title).map
        (fun x => x.attendees) = some r.attendees := by
  have hLne : storedAttendees r ≠ [] := by
    intro hc
    rw [hc] at hhostin
    simp at hhostin
  have hfmtne : r1.attendees ≠ "" := by
    rw [hr1att]
    exact pyJoin_append_singleton_ne_empty _ actor hLne
  have hged2 : get_event_data db2 title = some (toData r1) := by
    unfold get_event_data
    rw [hDB]
  have hattToData : (toData r1).attendees = r1.attendees := by
    simp [toData, hfmtne]
  have hnoCS : ∀ x ∈ storedAttendees r ++ [actor], hasCS x.data = false := by
    intro x hx
    rcases List.mem_append.mp hx with h1 | h2
    · rw [hstq] at h1
      exact pySplit_noCS r.attendees x h1
    · simp at h2
      subst h2
      exact isMention_no_hasCS x hmact
  have hsplitfmt : attList (toData r1).attendees =
      storedAttendees r ++ [actor] := by
    rw [hattToData, hr1att]
    unfold attList
    rw [if_neg (pyJoin_append_singleton_ne_empty _ actor hLne)]
    exact pySplit_pyJoin _ (by simp) hnoCS
  have hnh2 : actor ≠ (toData r1).host := by
    have : (toData r1).host = r.host := by
      rw [← hr1host]
      rfl
    rw [this]
    exact hahost
  have hmem2 : actor ∈ attList (toData r1).attendees := by
    rw [hsplitfmt]
    simp
  rcases leave_callback_eval db2 roles2 title actor (toData r1) hged2 hnh2
    hmem2 with ⟨hres, hdbeq⟩
  refine ⟨hres, ?_⟩
  have herase : (attList (toData r1).attendees).erase actor =
      storedAttendees r := by
    rw [hsplitfmt]
    rw [List.erase_append_right _ hnotin]
    simp
  have hpj : pyJoin (storedAttendees r) = r.attendees := by
    rw [hstq]
    exact pyJoin_pySplit r.attendees
  rw [hdbeq]
  rw [getRow_updateRows_self db2 title (fun x =>
    { x with attendees := pyJoin ((attList (toData r1).attendees).erase actor) })
    (fun x => rfl)]
  rw [hDB]
  simp [herase, hpj]
/-- C4: the claim says Join then Leave by the same non-host actor returns
the stored attendee set to exactly the pre-join set.  False: Join first
synthesizes the host into the list it persists, so when the host was not
stored before the join (reachable, e.g. after `/edit remove` of the host
mention), the round trip leaves the host mention behind: starting from
stored list `<@2>` (host `<@1>`), join and leave by `<@3>` end with
stored list `<@1>, <@2>`. -/
theorem C4_counterexample :
    (participate_callback [{ baseRow with attendees := "<@2>" }] ⟨[5], 6⟩
        "E" "<@3>").res = .joined ∧
      (leave_callback (participate_callback
          [{ baseRow with attendees := "<@2>" }] ⟨[5], 6⟩ "E" "<@3>").db
          [5] "E" "<@3>").res = .left ∧
      (getRow (leave_callback (participate_callback
          [{ baseRow with attendees := "<@2>" }] ⟨[5], 6⟩ "E" "<@3>").db
          [5] "E" "<@3>").db "E").map (fun x => x.attendees) =
        some "<@1>, <@2>" ∧
      "<@1>" ∉ attList "<@2>" := by
  decide

/-- C4 (amended): when the host is stored in the pre-join attendee list,
Join then Leave by the same non-host mention actor (not already stored,
with room under the host-inclusive capacity) returns the stored attendee
column to exactly its pre-join value. -/
theorem C4_join_leave_roundtrip_amended (db : List EventRow) (g : Guild)
    (title actor : String) (r : EventRow)
    (hget : getRow db title = some r)
    (hmact : isMention actor = true)
    (hahost : actor ≠ r.host)
    (hnotin : actor ∉ storedAttendees r)
    (hhostin : r.host ∈ storedAttendees r)
    (hcap : r.max_attendees = none ∨
      ∃ c, r.max_attendees = some c ∧ (hostInclusiveCount r : Int) < c) :
    (participate_callback db g title actor).res = .joined ∧
      (leave_callback (participate_callback db g title actor).db
        (participate_callback db g title actor).g.roles title actor).res =
        .left ∧
      (getRow (leave_callback (participate_callback db g title actor).db
          (participate_callback db g title actor).g.roles title actor).db
          title).map (fun x => x.attendees) = some r.attendees := by
  have hne : r.attendees ≠ "" := by
    intro hc
    rw [storedAttendees, attList, if_pos hc] at hhostin
    simp at hhostin
  have hstq : storedAttendees r = pySplit r.attendees := by
    rw [storedAttendees, attList, if_neg hne]
  have hged : get_event_data db title = some (toData r) := by
    unfold get_event_data
    rw [hget]
  have hl0 : attList (toData r).attendees = storedAttendees r := by
    simp [toData, hne, storedAttendees]
  have hcount : hostInclusiveCount r = (storedAttendees r).length := by
    unfold hostInclusiveCount
    rw [if_pos hhostin]
    omega
  have hcf : capFull (toData r).max_attendees
      (storedAttendees r).length = false := by
    rcases hcap with hn | ⟨c, hc, hlt⟩
    · have hmax : (toData r).max_attendees = none := hn
      rw [hmax]
      rfl
    · have hmax : (toData r).max_attendees = some c := hc
      rw [hmax]
      rw [hcount] at hlt
      have hnle : ¬ (c ≤ ((storedAttendees r).length : Int)) := by omega
      simp [capFull, hnle]
  have hhostin2 : (toData r).host ∈ storedAttendees r := hhostin
  have hjoin : participate_callback db g title actor =
      (let db1 := updateRows db title (fun x =>
        { x with attendees := pyJoin (storedAttendees r ++ [actor]) })
      if roleFound g.roles (toData r).role_id then
        (⟨db1, g, .joined⟩ : JoinOut)
      else
        ⟨updateRows db1 title (fun x => { x with role_id := some g.nextRoleId }),
          ⟨g.roles ++ [g.nextRoleId], g.nextRoleId + 1⟩, .joined⟩) := by
    simp only [participate_callback, hged, hl0]
    rw [if_neg hnotin, if_pos hhostin2]
    rw [if_neg (by rw [hcf]; simp)]
  rw [hjoin]
  by_cases hrf : roleFound g.roles (toData r).role_id
  · rw [if_pos hrf]
    have hDB : getRow (updateRows db title (fun x =>
        { x with attendees := pyJoin (storedAttendees r ++ [actor]) })) title =
        some { r with attendees := pyJoin (storedAttendees r ++ [actor]) } := by
      rw [getRow_updateRows_self db title (fun x =>
        { x with attendees := pyJoin (storedAttendees r ++ [actor]) })
        (fun x => rfl), hget]
      rfl
    rcases joinleave_aux _ g.roles title actor r
      { r with attendees := pyJoin (storedAttendees r ++ [actor]) } hDB rfl rfl
      hstq hhostin hnotin hmact hahost with ⟨h1, h2⟩
    exact ⟨rfl, h1, h2⟩
  · rw [if_neg hrf]
    have hDB : getRow (updateRows (updateRows db title (fun x =>
        { x with attendees := pyJoin (storedAttendees r ++ [actor]) })) title
        (fun x => { x with role_id := some g.nextRoleId })) title =
        some { r with attendees := pyJoin (storedAttendees r ++ [actor]),
                      role_id := some g.nextRoleId } := by
      rw [getRow_updateRows_self _ title
        (fun x => { x with role_id := some g.nextRoleId }) (fun x => rfl)]
      rw [getRow_updateRows_self db title (fun x =>
        { x with attendees := pyJoin (storedAttendees r ++ [actor]) })
        (fun x => rfl), hget]
      rfl
    rcases joinleave_aux _ (g.roles ++ [g.nextRoleId]) title actor r
      { r with attendees := pyJoin (storedAttendees r ++ [actor]),
               role_id := some g.nextRoleId } hDB rfl rfl
      hstq hhostin hnotin hmact hahost with ⟨h1, h2⟩
    exact ⟨rfl, h1, h2⟩

/-- Witness for C4 (amended) at a concrete input: with host `<@1>` stored,
join and leave by `<@2>` restore the stored column `<@1>`. -/
theorem C4_witness :
    (participate_callback [baseRow] ⟨[5], 6⟩ "E" "<@2>").res = .joined ∧
      (leave_callback (participate_callback [baseRow] ⟨[5], 6⟩ "E"
          "<@2>").db (participate_callback [baseRow] ⟨[5], 6⟩ "E"
          "<@2>").g.roles "E" "<@2>").res = .left ∧
      (getRow (leave_callback (participate_callback [baseRow] ⟨[5], 6⟩ "E"
          "<@2>").db (participate_callback [baseRow] ⟨[5], 6⟩ "E"
          "<@2>").g.roles "E" "<@2>").db "E").map (fun x => x.attendees) =
        some "<@1>" :=
  C4_join_leave_roundtrip_amended [baseRow] ⟨[5], 6⟩ "E" "<@2>" baseRow
    (by decide) (by decide) (by decide) (by decide) (by decide)
    (Or.inl (by decide))

end EventBot
